import Mathlib

/-!
Verification of the interactive-session core of a terminal messaging client
(repository `tg_console_cl`), against its natural-language specification.

The Python source is shallowly embedded: pure computations become Lean
functions over `Nat` / `Int` / `List`, Python strings are modelled as
`List Char`, Python dicts as association lists, and the stateful parts
(cache manager, state machine, async loader, session glue) become explicit
state-passing functions.  Machine integers do not overflow in Python, so
`Nat` / `Int` are the faithful carriers.
-/

namespace TgCl

/-! ## Viewport layout: message list (src/views/chat.py, `render_chat`)

`render_chat` computes item heights for all messages, then a scroll start
index (lines 188-218), then draws whole items greedily from the start index
(lines 220-231, the loop breaks before any item that would not fit in full).
-/

/-- Backward greedy walk of `render_chat` (src/views/chat.py lines 209-218):
starting from candidate start `s` with accumulated height `cur`, absorb the
item just above the current start while the accumulated height stays within
the content height `H`; stop at the first item that would overflow. -/
def absorbBack (heights : List Nat) (H : Nat) : Nat → Nat → Nat
  | 0, _ => 0
  | s + 1, cur =>
    let h := heights.getD s 0
    if cur + h ≤ H then absorbBack heights H s (cur + h) else s + 1

/-- Scroll start index of `render_chat` (src/views/chat.py lines 188-218):
if every message fits, start at 0; else if the messages before the selected
one plus the selected one itself exceed the content height, start at the
selected index; else walk backward absorbing items greedily. -/
def chatStartIndex (heights : List Nat) (H : Nat) (S : Nat) : Nat :=
  if heights.sum ≤ H then 0
  else
    let before := (heights.take S).sum
    let hS := heights.getD S 0
    if H < before + hS then S
    else absorbBack heights H S hS

/-- Greedy whole-item drawing of `render_chat` (src/views/chat.py lines
224-230): draw items in order while each next item still fits in the
remaining rows; stop at the first item that does not fit in full. -/
def drawnFrom (H : Nat) : List Nat → Nat
  | [] => 0
  | h :: hs => if h ≤ H then drawnFrom (H - h) hs + 1 else 0

/-- Number of messages drawn by `render_chat` when drawing starts at index
`start` with content height `H` (`drawn_messages` in the source). -/
def drawnCount (heights : List Nat) (start H : Nat) : Nat :=
  drawnFrom H (heights.drop start)

/-! ## Viewport layout: conversation list (src/views/dialogs.py, `render_dialogs`)

`render_dialogs` items all have height 1; its start index (line 103) is
`max(0, min(selected_index - visible_lines // 2, len(dialogs) - visible_lines))`,
computed in Python integer arithmetic (modelled over `Int`). -/

/-- Scroll start index of `render_dialogs` (src/views/dialogs.py line 103). -/
def dialogsStartIndex (n H S : Int) : Int :=
  max 0 (min (S - H / 2) (n - H))

/-- Sum of the first `k + 1` heights splits off the `k`-th height
(`getD` with default 0 also covers `k` past the end). -/
theorem sum_take_succ_getD (l : List Nat) (k : Nat) :
    (l.take (k + 1)).sum = (l.take k).sum + l.getD k 0 := by
  induction l generalizing k with
  | nil => simp [List.getD]
  | cons h t ih =>
    cases k with
    | zero => simp [List.getD]
    | succ k => simpa [List.take_succ_cons, List.getD_cons_succ, Nat.add_assoc] using
        congrArg (h + ·) (ih k)

/-- If the accumulated height together with everything above the candidate
start still fits, the backward walk of `render_chat` absorbs every item and
returns 0. -/
theorem absorbBack_eq_zero (heights : List Nat) (H : Nat) :
    ∀ s cur, cur + (heights.take s).sum ≤ H → absorbBack heights H s cur = 0 := by
  intro s
  induction s with
  | zero => intro cur _; rfl
  | succ s ih =>
    intro cur hcur
    have hsum : (heights.take (s + 1)).sum = (heights.take s).sum + heights.getD s 0 :=
      sum_take_succ_getD heights s
    have hfit : cur + heights.getD s 0 ≤ H := by omega
    have hrec : (cur + heights.getD s 0) + (heights.take s).sum ≤ H := by omega
    simp only [absorbBack, hfit, if_pos]
    exact ih _ hrec

/-- If the first `k` items fit together within the budget, the greedy
drawing loop draws at least `k` items. -/
theorem le_drawnFrom (H : Nat) (l : List Nat) (k : Nat)
    (hk : k ≤ l.length) (hsum : (l.take k).sum ≤ H) : k ≤ drawnFrom H l := by
  induction l generalizing H k with
  | nil => simp at hk; subst hk; exact Nat.zero_le _
  | cons h t ih =>
    cases k with
    | zero => exact Nat.zero_le _
    | succ k =>
      have hh : h ≤ H := by
        have : h + (t.take k).sum ≤ H := by simpa [List.sum_cons] using hsum
        omega
      have ht : (t.take k).sum ≤ H - h := by
        have : h + (t.take k).sum ≤ H := by simpa [List.sum_cons] using hsum
        omega
      have := ih (H - h) k (by simpa using hk) ht
      simp only [drawnFrom, hh, if_pos]
      omega

/-- Unfolding equation for `chatStartIndex` with the local bindings of the
source spelled out. -/
theorem chatStartIndex_eq (heights : List Nat) (H S : Nat) :
    chatStartIndex heights H S =
      if heights.sum ≤ H then 0
      else if H < (heights.take S).sum + heights.getD S 0 then S
      else absorbBack heights H S (heights.getD S 0) := rfl

/-- Sum of a prefix of a `Nat` list is at most the whole sum. -/
theorem sum_take_le_sum (l : List Nat) (k : Nat) : (l.take k).sum ≤ l.sum := by
  have h : (l.take k).sum + (l.drop k).sum = l.sum := by
    rw [← List.sum_append, List.take_append_drop]
  omega

/-- Dropping `S` elements exposes the `S`-th element in front (stated via
`getD`, which the viewport code uses through Python indexing). -/
theorem drop_eq_getD_cons (l : List Nat) (S : Nat) (h : S < l.length) :
    l.drop S = l.getD S 0 :: l.drop (S + 1) := by
  rw [List.getD_eq_getElem l 0 h]
  exact List.drop_eq_getElem_cons h

/-- C4: `render_chat` computes the scroll start index by exactly the
three-case algorithm: everything fits → start 0; the selected message plus
everything above it overflows the content height → start at the selected
index; otherwise the backward greedy walk, whose result is the least index
`j` such that messages `j..S` together fit within the content height.  In
the end-to-end scenario of 10 items with heights `[2,2,2,2,1,4,1,1,1,1]`
and `H = 10` (items 0-4 sum to `H - 1 = 9`, selected item 5 needs 3 more
rows than the single remaining row), the start index is 5, not 0. -/
theorem chatStartIndex_three_cases :
    (∀ (heights : List Nat) (H S : Nat), S < heights.length →
      (heights.sum ≤ H → chatStartIndex heights H S = 0) ∧
      (H < heights.sum → H < (heights.take (S + 1)).sum →
        chatStartIndex heights H S = S) ∧
      (H < heights.sum → (heights.take (S + 1)).sum ≤ H →
        ((heights.take (S + 1)).drop (chatStartIndex heights H S)).sum ≤ H ∧
        ∀ j, ((heights.take (S + 1)).drop j).sum ≤ H →
          chatStartIndex heights H S ≤ j)) ∧
    chatStartIndex [2, 2, 2, 2, 1, 4, 1, 1, 1, 1] 10 5 = 5 ∧
    chatStartIndex [2, 2, 2, 2, 1, 4, 1, 1, 1, 1] 10 5 ≠ 0 := by
  refine ⟨?_, by decide, by decide⟩
  intro heights H S _
  have hsplit := sum_take_succ_getD heights S
  refine ⟨fun h => by rw [chatStartIndex_eq, if_pos h], ?_, ?_⟩
  · intro h1 h2
    rw [chatStartIndex_eq, if_neg (by omega), if_pos (by omega)]
  · intro h1 h2
    have hzero : absorbBack heights H S (heights.getD S 0) = 0 :=
      absorbBack_eq_zero heights H S _ (by omega)
    have hres : chatStartIndex heights H S = 0 := by
      rw [chatStartIndex_eq, if_neg (by omega), if_neg (by omega), hzero]
    rw [hres]
    exact ⟨by simpa using h2, fun j _ => Nat.zero_le j⟩

/-- Witness for `chatStartIndex_three_cases` at a concrete input. -/
theorem chatStartIndex_three_cases_witness : chatStartIndex [1, 1] 5 1 = 0 :=
  ((chatStartIndex_three_cases.1 [1, 1] 5 1 (by decide)).1) (by decide)

/-- C2 counterexample: a single message of height 4 with content height 3:
the start index is the selected index 0, but the drawing loop breaks before
drawing any part of it, so the rendered range `[start, start + drawn)` is
empty and the selected item is not even partially included — the renderer
omits an over-tall selected item instead of truncating it mid-item. -/
theorem chat_selected_omitted_counterexample :
    chatStartIndex [4] 3 0 = 0 ∧
    drawnCount [4] (chatStartIndex [4] 3 0) 3 = 0 := by decide

/-- C2 (amended): if the selected message itself fits in the content height
it is always fully inside the rendered range `[start, start + drawn)`; if
it is taller than the content height, `render_chat` starts at it but draws
nothing at all (the selected item is omitted entirely, not truncated). -/
theorem chat_selected_visibility (heights : List Nat) (H S : Nat)
    (hlen : S < heights.length) :
    (heights.getD S 0 ≤ H →
      chatStartIndex heights H S ≤ S ∧
      S < chatStartIndex heights H S + drawnCount heights (chatStartIndex heights H S) H) ∧
    (H < heights.getD S 0 →
      chatStartIndex heights H S = S ∧ drawnCount heights S H = 0) := by
  have hsplit := sum_take_succ_getD heights S
  constructor
  · intro hfit
    by_cases hall : heights.sum ≤ H
    · have hres : chatStartIndex heights H S = 0 := by
        rw [chatStartIndex_eq, if_pos hall]
      refine ⟨hres ▸ Nat.zero_le S, ?_⟩
      have hdraw : S + 1 ≤ drawnFrom H heights :=
        le_drawnFrom H heights (S + 1) hlen
          (le_trans (sum_take_le_sum heights (S + 1)) hall)
      rw [hres]
      simpa [drawnCount] using hdraw
    · by_cases hpre : H < (heights.take S).sum + heights.getD S 0
      · have hres : chatStartIndex heights H S = S := by
          rw [chatStartIndex_eq, if_neg hall, if_pos hpre]
        refine ⟨le_of_eq hres, ?_⟩
        rw [hres]
        have hdrop := drop_eq_getD_cons heights S hlen
        have hone : 1 ≤ drawnFrom H (heights.drop S) := by
          rw [hdrop]
          simp only [drawnFrom]
          rw [if_pos hfit]
          omega
        simp only [drawnCount]
        omega
      · have hzero : absorbBack heights H S (heights.getD S 0) = 0 :=
          absorbBack_eq_zero heights H S _ (by omega)
        have hres : chatStartIndex heights H S = 0 := by
          rw [chatStartIndex_eq, if_neg hall, if_neg hpre, hzero]
        refine ⟨hres ▸ Nat.zero_le S, ?_⟩
        have hdraw : S + 1 ≤ drawnFrom H heights :=
          le_drawnFrom H heights (S + 1) hlen (by omega)
        rw [hres]
        simpa [drawnCount] using hdraw
  · intro htall
    have hmem : heights.getD S 0 ∈ heights := by
      rw [List.getD_eq_getElem heights 0 hlen]
      exact List.getElem_mem hlen
    have hsum : heights.getD S 0 ≤ heights.sum :=
      List.single_le_sum (fun _ _ => Nat.zero_le _) _ hmem
    have hall : ¬ heights.sum ≤ H := by omega
    have hpre : H < (heights.take S).sum + heights.getD S 0 := by omega
    refine ⟨by rw [chatStartIndex_eq, if_neg hall, if_pos hpre], ?_⟩
    have hdrop := drop_eq_getD_cons heights S hlen
    simp only [drawnCount, hdrop, drawnFrom]
    rw [if_neg (by omega)]

/-- Witness for `chat_selected_visibility` at a concrete input. -/
theorem chat_selected_visibility_witness :
    chatStartIndex [1, 2, 1] 3 1 ≤ 1 ∧
    1 < chatStartIndex [1, 2, 1] 3 1 +
      drawnCount [1, 2, 1] (chatStartIndex [1, 2, 1] 3 1) 3 :=
  (chat_selected_visibility [1, 2, 1] 3 1 (by decide)).1 (by decide)

/-- C1 counterexample: with 10 unit-height conversations, visible height 5
and selected index 5, `render_dialogs` starts at index 3 (it centers the
selection), while the claimed viewport computation `max 0 (S - (H - 1))`
gives 1, and the message-list computation of `render_chat` on ten
unit-height items gives 5 — the three disagree. -/
theorem dialogs_start_counterexample :
    dialogsStartIndex 10 5 5 = 3 ∧
    (max 0 (5 - (5 - 1)) : Int) = 1 ∧
    dialogsStartIndex 10 5 5 ≠ max 0 (5 - (5 - 1)) ∧
    chatStartIndex (List.replicate 10 1) 5 5 = 5 ∧
    dialogsStartIndex 10 5 5 ≠ (chatStartIndex (List.replicate 10 1) 5 5 : Int) := by
  refine ⟨by decide, by decide, by decide, by decide, ?_⟩
  have h : chatStartIndex (List.replicate 10 1) 5 5 = 5 := by decide
  rw [h]; decide

/-- C1 (amended): `render_dialogs` computes its own start index
`max 0 (min (S - H / 2) (N - H))`, which centers the selected conversation
rather than maximizing the number of items above it; the selected index is
nevertheless always inside the drawn window `[start, start + H)`, and the
window stays inside the list. -/
theorem dialogs_start_centers_selection (n H S : Int)
    (hH : 1 ≤ H) (hn : H < n) (hS0 : 0 ≤ S) (hSn : S < n) :
    0 ≤ dialogsStartIndex n H S ∧
    dialogsStartIndex n H S ≤ S ∧
    S < dialogsStartIndex n H S + H ∧
    dialogsStartIndex n H S + H ≤ n := by
  unfold dialogsStartIndex
  omega

/-- Witness for `dialogs_start_centers_selection` at a concrete input. -/
theorem dialogs_start_centers_selection_witness :
    0 ≤ dialogsStartIndex 10 5 5 ∧
    dialogsStartIndex 10 5 5 ≤ 5 ∧
    (5 : Int) < dialogsStartIndex 10 5 5 + 5 ∧
    dialogsStartIndex 10 5 5 + 5 ≤ 10 :=
  dialogs_start_centers_selection 10 5 5 (by decide) (by decide) (by decide) (by decide)

/-! ## Text wrapping (src/views/chat.py, `format_message_text`, lines 62-87)

The wrapping loop of `format_message_text` splits the message text on
explicit newlines, keeps a line whose length fits the width verbatim, and
greedily packs the space-separated words of an over-wide line.  Python
strings are modelled as `List Char`; a text is given pre-split, as its
list of explicit lines, each line being its list of single-space-separated
tokens (so `lineLen` — token lengths plus one separating space between
consecutive tokens — is the length of the original line string, and the
running `current_line` string is represented by its token list). -/

/-- Length of the string obtained by joining tokens with single spaces
(`len(current_line)` / `len(line)` in the source): the token lengths plus
one separating space between consecutive tokens. -/
def lineLen (ws : List (List Char)) : Nat :=
  (ws.map List.length).sum + (ws.length - 1)

/-- Greedy word-packing loop of `format_message_text` (src/views/chat.py
lines 70-85): `cur` is the token list of Python's `current_line`; the test
`lineLen cur = 0` is Python's `if current_line:` falsiness of the empty
string; the final line is appended only when non-empty. -/
def packWords (width : Nat) : List (List Char) → List (List Char) → List (List (List Char))
  | cur, [] => if lineLen cur = 0 then [] else [cur]
  | cur, w :: ws =>
    if lineLen cur + w.length + 1 ≤ width then
      if lineLen cur = 0 then packWords width [w] ws
      else packWords width (cur ++ [w]) ws
    else cur :: packWords width [w] ws

/-- Wrapping of a whole message text (src/views/chat.py lines 62-87): each
explicit line is kept verbatim when it fits the width, and greedily packed
otherwise. -/
def format_message_text (width : Nat) (text : List (List (List Char))) :
    List (List (List Char)) :=
  (text.map fun line =>
    if lineLen line ≤ width then [line] else packWords width [] line).flatten

/-- Appending one token to a non-empty current line adds the token length
plus one separating space. -/
theorem lineLen_append_single (cur : List (List Char)) (w : List Char)
    (h : cur ≠ []) : lineLen (cur ++ [w]) = lineLen cur + 1 + w.length := by
  have hpos : 1 ≤ cur.length := List.length_pos.mpr h
  simp only [lineLen, List.map_append, List.sum_append, List.length_append,
    List.map_cons, List.map_nil, List.sum_cons, List.sum_nil, List.length_cons,
    List.length_nil]
  omega

/-- A current line of length 0 is the empty string: no token, or a single
empty token. -/
theorem lineLen_eq_zero_cases {cur : List (List Char)} (h : lineLen cur = 0) :
    cur = [] ∨ cur = [[]] := by
  match cur with
  | [] => exact Or.inl rfl
  | [w] =>
    refine Or.inr ?_
    have hw : w.length = 0 := by simpa [lineLen] using h
    have : w = [] := List.length_eq_zero.mp hw
    rw [this]
  | w :: x :: xs => simp [lineLen] at h

/-- A current line of length 0 contributes no non-empty token. -/
theorem filter_ne_empty_of_lineLen_zero {cur : List (List Char)}
    (h : lineLen cur = 0) : cur.filter (fun w => !w.isEmpty) = [] := by
  rcases lineLen_eq_zero_cases h with h' | h' <;> subst h' <;> rfl

/-- Splitting a cons off a filtered list. -/
theorem filter_cons_split (w : List Char) (ws : List (List Char)) :
    (w :: ws).filter (fun v => !v.isEmpty) =
      [w].filter (fun v => !v.isEmpty) ++ ws.filter (fun v => !v.isEmpty) := by
  by_cases h : (!w.isEmpty) = true <;> simp [List.filter_cons, h]

/-- Word preservation of the greedy packing loop: the non-empty tokens of
the produced lines are exactly those of the current line followed by those
of the remaining words, in order. -/
theorem packWords_words (width : Nat) :
    ∀ (ws cur : List (List Char)),
      ((packWords width cur ws).flatten).filter (fun w => !w.isEmpty) =
        cur.filter (fun w => !w.isEmpty) ++ ws.filter (fun w => !w.isEmpty) := by
  intro ws
  induction ws with
  | nil =>
    intro cur
    by_cases h0 : lineLen cur = 0
    · simp only [packWords, if_pos h0]
      simp [filter_ne_empty_of_lineLen_zero h0]
    · simp only [packWords, if_neg h0]
      simp
  | cons w ws ih =>
    intro cur
    by_cases hfits : lineLen cur + w.length + 1 ≤ width
    · by_cases h0 : lineLen cur = 0
      · simp only [packWords, if_pos hfits, if_pos h0]
        rw [ih [w], filter_ne_empty_of_lineLen_zero h0, filter_cons_split w ws]
        simp
      · simp only [packWords, if_pos hfits, if_neg h0]
        rw [ih (cur ++ [w]), List.filter_append, filter_cons_split w ws]
        simp
    · simp only [packWords, if_neg hfits]
      rw [List.flatten_cons, List.filter_append, ih [w], filter_cons_split w ws]

/-- Over-wide lines produced by the greedy packing loop are single tokens
drawn from the current line or the remaining words. -/
theorem packWords_overwide (width : Nat) :
    ∀ (ws cur : List (List Char)),
      (width < lineLen cur → ∃ w, cur = [w]) →
      ∀ l ∈ packWords width cur ws, width < lineLen l →
        ∃ w, l = [w] ∧ (w ∈ cur ∨ w ∈ ws) := by
  intro ws
  induction ws with
  | nil =>
    intro cur hcur l hl hwide
    by_cases h0 : lineLen cur = 0
    · simp only [packWords, if_pos h0] at hl
      simp at hl
    · simp only [packWords, if_neg h0] at hl
      simp at hl
      subst hl
      obtain ⟨w, hw⟩ := hcur hwide
      exact ⟨w, hw, Or.inl (hw ▸ List.mem_singleton_self w)⟩
  | cons w ws ih =>
    intro cur hcur l hl hwide
    by_cases hfits : lineLen cur + w.length + 1 ≤ width
    · by_cases h0 : lineLen cur = 0
      · simp only [packWords, if_pos hfits, if_pos h0] at hl
        obtain ⟨v, hv, hmem⟩ := ih [w] (fun _ => ⟨w, rfl⟩) l hl hwide
        refine ⟨v, hv, Or.inr ?_⟩
        rcases hmem with h | h
        · simp at h; rw [h]; exact List.mem_cons_self _ _
        · exact List.mem_cons_of_mem w h
      · simp only [packWords, if_pos hfits, if_neg h0] at hl
        have hnil : cur ≠ [] := by
          intro h; exact h0 (by rw [h]; rfl)
        have hinv : width < lineLen (cur ++ [w]) → ∃ v, cur ++ [w] = [v] := by
          intro hw
          rw [lineLen_append_single cur w hnil] at hw
          omega
        obtain ⟨v, hv, hmem⟩ := ih (cur ++ [w]) hinv l hl hwide
        refine ⟨v, hv, ?_⟩
        rcases hmem with h | h
        · rcases List.mem_append.mp h with h' | h'
          · exact Or.inl h'
          · simp at h'; rw [h']; exact Or.inr (List.mem_cons_self _ _)
        · exact Or.inr (List.mem_cons_of_mem w h)
    · simp only [packWords, if_neg hfits] at hl
      rcases List.mem_cons.mp hl with h | h
      · subst h
        obtain ⟨v, hv⟩ := hcur hwide
        exact ⟨v, hv, Or.inl (hv ▸ List.mem_singleton_self v)⟩
      · obtain ⟨v, hv, hmem⟩ := ih [w] (fun _ => ⟨w, rfl⟩) l h hwide
        refine ⟨v, hv, Or.inr ?_⟩
        rcases hmem with h' | h'
        · simp at h'; rw [h']; exact List.mem_cons_self _ _
        · exact List.mem_cons_of_mem w h'

/-- C8: word-wrap soundness of `format_message_text`: every produced line
either fits the target width or is a single word of the input text that is
itself longer than the width (kept unsplit on its own line); and the
sequence of non-empty words of the produced lines (joining lines with
single spaces, explicit newlines collapsed) is exactly the sequence of
non-empty words of the input text. -/
theorem format_message_text_wrap (width : Nat) (text : List (List (List Char))) :
    (∀ l ∈ format_message_text width text, width < lineLen l →
      ∃ w, l = [w] ∧ width < w.length ∧ w ∈ text.flatten) ∧
    ((format_message_text width text).flatten).filter (fun w => !w.isEmpty) =
      (text.flatten).filter (fun w => !w.isEmpty) := by
  induction text with
  | nil => exact ⟨by intro l hl; simp [format_message_text] at hl, by rfl⟩
  | cons line text ih =>
    have hsplit : format_message_text width (line :: text) =
        (if lineLen line ≤ width then [line] else packWords width [] line) ++
          format_message_text width text := by
      simp [format_message_text]
    constructor
    · intro l hl hwide
      rw [hsplit] at hl
      rcases List.mem_append.mp hl with h | h
      · by_cases hfit : lineLen line ≤ width
        · rw [if_pos hfit] at h
          simp at h
          subst h
          exact absurd hwide (not_lt.mpr hfit)
        · rw [if_neg hfit] at h
          obtain ⟨w, hw, hmem⟩ :=
            packWords_overwide width line []
              (by intro h0; simp [lineLen] at h0) l h hwide
          refine ⟨w, hw, ?_, ?_⟩
          · have h1 : lineLen [w] = w.length := by simp [lineLen]
            rw [hw, h1] at hwide
            exact hwide
          · rcases hmem with h' | h'
            · simp at h'
            · rw [List.flatten_cons]
              exact List.mem_append.mpr (Or.inl h')
      · obtain ⟨w, hw, hlen, hmem⟩ := ih.1 l h hwide
        refine ⟨w, hw, hlen, ?_⟩
        rw [List.flatten_cons]
        exact List.mem_append.mpr (Or.inr hmem)
    · rw [hsplit, List.flatten_append, List.filter_append, List.flatten_cons,
        List.filter_append, ih.2]
      congr 1
      by_cases hfit : lineLen line ≤ width
      · rw [if_pos hfit]; simp
      · rw [if_neg hfit]
        simpa using packWords_words width line []

/-- Witness for `format_message_text_wrap` at a concrete input: wrapping
the line "a bbbb" to width 3 produces the over-wide line "bbbb", a single
word of the input longer than the width. -/
theorem format_message_text_wrap_witness :
    ∃ w, [['b', 'b', 'b', 'b']] = [w] ∧ 3 < w.length ∧
      w ∈ ([[['a'], ['b', 'b', 'b', 'b']]] : List (List (List Char))).flatten :=
  (format_message_text_wrap 3 [[['a'], ['b', 'b', 'b', 'b']]]).1
    [['b', 'b', 'b', 'b']] (by decide) (by decide)

/-! ## TTL cache (src/services/cache.py, `CacheManager`)

The dialog-list slot holds an optional payload, a timestamp and the
`only_unread` filter discriminator; the per-conversation message cache is
a dict from dialog id to (optional payload, timestamp), modelled as an
association list with unique keys.  `time.time()` instants and the TTL are
modelled over `Int` (seconds); payload types are parameters. -/

/-- The single dialog-list slot (`dialogs_cache`, src/services/cache.py
lines 41-45). -/
structure DialogsCacheEntry (α : Type) where
  data : Option α
  timestamp : Int
  only_unread : Bool
deriving DecidableEq

/-- One per-conversation entry of `messages_cache` (src/services/cache.py
lines 124-127 and 198-201). -/
structure MessagesCacheEntry (β : Type) where
  data : Option β
  timestamp : Int
deriving DecidableEq

/-- The cache manager state (src/services/cache.py lines 20-51). -/
structure CacheManager (α β : Type) where
  max_age_minutes : Int
  dialogs_cache : DialogsCacheEntry α
  messages_cache : List (Int × MessagesCacheEntry β)
deriving DecidableEq

/-- Freshly initialized manager before `_load_cache` runs
(src/services/cache.py lines 41-48). -/
def initCacheManager (α β : Type) (max_age_minutes : Int) : CacheManager α β :=
  ⟨max_age_minutes, ⟨none, 0, false⟩, []⟩

/-- `CacheManager.get_dialogs` (src/services/cache.py lines 55-77): the
cached list is returned only when a payload is present, the stored
`only_unread` discriminator equals the requested one, and the entry is
younger than the TTL. -/
def get_dialogs (c : CacheManager α β) (only_unread : Bool) (now : Int) : Option α :=
  if c.dialogs_cache.data.isSome ∧ c.dialogs_cache.only_unread = only_unread ∧
      now - c.dialogs_cache.timestamp < c.max_age_minutes * 60 then
    c.dialogs_cache.data
  else none

/-- `CacheManager.get_messages` (src/services/cache.py lines 95-114): when
the dialog id is present and the entry is younger than the TTL the stored
`data` field is returned as-is (it may itself be `None` after a metadata
restore); otherwise `None`. -/
def get_messages (c : CacheManager α β) (dialog_id : Int) (now : Int) : Option β :=
  match c.messages_cache.lookup dialog_id with
  | some entry =>
    if now - entry.timestamp < c.max_age_minutes * 60 then entry.data else none
  | none => none

/-- `CacheManager.store_messages` (src/services/cache.py lines 116-129):
dict assignment `messages_cache[dialog_id] = {data, timestamp=now}`. -/
def store_messages (c : CacheManager α β) (dialog_id : Int) (msgs : β)
    (now : Int) : CacheManager α β :=
  { c with messages_cache :=
      (dialog_id, ⟨some msgs, now⟩) ::
        c.messages_cache.filter (fun p => p.1 != dialog_id) }

/-- `CacheManager.invalidate_messages_cache` (src/services/cache.py lines
136-148): with no id, clear the whole dict; with an id, delete that entry
if present. -/
def invalidate_messages_cache (c : CacheManager α β) (dialog_id : Option Int) :
    CacheManager α β :=
  match dialog_id with
  | none => { c with messages_cache := [] }
  | some did =>
    { c with messages_cache := c.messages_cache.filter (fun p => p.1 != did) }

/-- `CacheManager._load_cache` (src/services/cache.py lines 180-206), run
during `__init__` on the freshly initialized manager: the dialog slot gets
the persisted timestamp and discriminator but no payload, and every
persisted message key gets an entry with `data = None` and its persisted
timestamp. -/
def load_cache (α β : Type) (max_age_minutes : Int)
    (dialogs_meta : Option (Int × Bool)) (messages_meta : List (Int × Int)) :
    CacheManager α β :=
  let c := initCacheManager α β max_age_minutes
  { c with
    dialogs_cache :=
      match dialogs_meta with
      | some (ts, ou) => { c.dialogs_cache with timestamp := ts, only_unread := ou }
      | none => c.dialogs_cache
    messages_cache := messages_meta.map (fun p => (p.1, ⟨none, p.2⟩)) }

/-- Every entry restored from persisted metadata has an absent payload. -/
theorem lookup_load_cache_data_none (β : Type) (messages_meta : List (Int × Int))
    (did : Int) (e : MessagesCacheEntry β)
    (h : (messages_meta.map (fun p => ((p.1 : Int), (⟨none, p.2⟩ : MessagesCacheEntry β)))).lookup did = some e) :
    e.data = none := by
  induction messages_meta with
  | nil => simp [List.lookup] at h
  | cons p ps ih =>
    simp only [List.map_cons, List.lookup] at h
    split at h
    · cases h
      rfl
    · exact ih h

/-- C5: a cache read returns a stored value iff the entry is valid — the
payload is present, the entry is younger than the TTL, and (for the dialog
slot) the stored `only_unread` discriminator equals the requested one — so
an invalid entry behaves exactly like an absent one; and after restoring
persisted metadata, a per-conversation lookup misses for every query time,
even when the restored timestamp is still fresh, because the payload is
absent. -/
theorem cache_get_valid {α β : Type} :
    (∀ (c : CacheManager α β) (ou : Bool) (now : Int) (v : α),
      get_dialogs c ou now = some v ↔
        (c.dialogs_cache.data = some v ∧ c.dialogs_cache.only_unread = ou ∧
         now - c.dialogs_cache.timestamp < c.max_age_minutes * 60)) ∧
    (∀ (c : CacheManager α β) (did now : Int) (v : β),
      get_messages c did now = some v ↔
        ∃ e, c.messages_cache.lookup did = some e ∧ e.data = some v ∧
          now - e.timestamp < c.max_age_minutes * 60) ∧
    (∀ (ttl : Int) (dmeta : Option (Int × Bool)) (mmeta : List (Int × Int))
       (did now : Int),
      get_messages (load_cache α β ttl dmeta mmeta) did now = none) := by
  refine ⟨?_, ?_, ?_⟩
  · intro c ou now v
    unfold get_dialogs
    by_cases h : c.dialogs_cache.data.isSome ∧ c.dialogs_cache.only_unread = ou ∧
        now - c.dialogs_cache.timestamp < c.max_age_minutes * 60
    · rw [if_pos h]
      constructor
      · intro hv
        exact ⟨hv, h.2.1, h.2.2⟩
      · intro hv
        exact hv.1
    · rw [if_neg h]
      constructor
      · intro hv
        cases hv
      · rintro ⟨h1, h2, h3⟩
        exact absurd ⟨by rw [h1]; rfl, h2, h3⟩ h
  · intro c did now v
    unfold get_messages
    cases hl : c.messages_cache.lookup did with
    | none =>
      simp
    | some e =>
      dsimp only
      by_cases hf : now - e.timestamp < c.max_age_minutes * 60
      · rw [if_pos hf]
        constructor
        · intro hv
          exact ⟨e, rfl, hv, hf⟩
        · rintro ⟨e', he', hd, _⟩
          cases he'
          exact hd
      · rw [if_neg hf]
        constructor
        · intro hv
          cases hv
        · rintro ⟨e', he', _, hfr⟩
          cases he'
          exact absurd hfr hf
  · intro ttl dmeta mmeta did now
    unfold get_messages
    cases hl : (load_cache α β ttl dmeta mmeta).messages_cache.lookup did with
    | none => rfl
    | some e =>
      have hd : e.data = none :=
        lookup_load_cache_data_none β mmeta did e (by simpa [load_cache] using hl)
      dsimp only
      rw [hd]
      by_cases hf : now - e.timestamp < (load_cache α β ttl dmeta mmeta).max_age_minutes * 60
      · rw [if_pos hf]
      · rw [if_neg hf]

/-- Witness for `cache_get_valid` at a concrete input: a restored entry
with a fresh timestamp still misses. -/
theorem cache_get_valid_witness :
    get_messages (load_cache Nat Nat 5 none [(1, 100)]) 1 100 = none :=
  (@cache_get_valid Nat Nat).2.2 5 none [(1, 100)] 1 100

/-! ## State machine (src/state.py, `StateManager`)

The scratch data `_state_data` is an opaque type parameter and the kwargs
merge performed on a transition is an arbitrary update function; the
per-state listener lists hold opaque listener identifiers, and the listener
invocations triggered by a call are returned alongside the new state. -/

/-- `AppState` (src/state.py lines 14-21). -/
inductive AppState
  | INIT
  | DIALOGS
  | CHAT
  | REPLY
  | SETTINGS
  | ERROR
deriving DecidableEq

/-- `StateManager` state (src/state.py lines 27-34). -/
structure StateManager (δ : Type) where
  current : AppState
  prev : Option AppState
  data : δ
  callbacks : AppState → List Nat

/-- `StateManager.set_state` (src/state.py lines 36-57): a call with the
current state is a complete no-op; otherwise previous ← current, current ←
the new state, the scratch data is merged, and the listeners registered for
the new state fire in registration order (returned as the second
component). -/
def set_state (sm : StateManager δ) (state : AppState) (upd : δ → δ) :
    StateManager δ × List Nat :=
  if state ≠ sm.current then
    ({ sm with prev := some sm.current, current := state, data := upd sm.data },
     sm.callbacks state)
  else (sm, [])

/-- `StateManager.return_to_previous_state` (src/state.py lines 77-80):
`AppState` members are all truthy in Python, so the guard is exactly a test
that a previous state is recorded; the call passes no scratch data. -/
def return_to_previous_state (sm : StateManager δ) : StateManager δ × List Nat :=
  match sm.prev with
  | some p => set_state sm p id
  | none => (sm, [])

/-- C9: `set_state` with the current state changes nothing and fires no
listener; and after `set_state A` then `set_state B` with `A ≠ B`,
`return_to_previous_state` makes `A` current and records `B` as the new
previous state. -/
theorem set_state_semantics {δ : Type} (sm : StateManager δ)
    (upd updA updB : δ → δ) (A B : AppState) (hAB : A ≠ B) :
    set_state sm sm.current upd = (sm, []) ∧
    ((return_to_previous_state
        ((set_state ((set_state sm A updA).1) B updB).1)).1.current = A ∧
     (return_to_previous_state
        ((set_state ((set_state sm A updA).1) B updB).1)).1.prev = some B) := by
  refine ⟨by rw [set_state, if_neg (by simp)], ?_⟩
  have h1 : ((set_state sm A updA).1).current = A := by
    by_cases h : A = sm.current
    · rw [set_state, if_neg (not_ne_iff.mpr h)]
      exact h.symm
    · rw [set_state, if_pos h]
  set sm1 := (set_state sm A updA).1
  have hB : B ≠ sm1.current := by rw [h1]; exact hAB.symm
  have h2c : (set_state sm1 B updB).1.current = B := by rw [set_state, if_pos hB]
  have h2p : (set_state sm1 B updB).1.prev = some sm1.current := by
    rw [set_state, if_pos hB]
  set sm2 := (set_state sm1 B updB).1
  have h3 : return_to_previous_state sm2 = set_state sm2 A id := by
    have hp : sm2.prev = some A := by rw [h2p, h1]
    unfold return_to_previous_state
    rw [hp]
  have hA2 : A ≠ sm2.current := by rw [h2c]; exact hAB
  rw [h3]
  constructor
  · rw [set_state, if_pos hA2]
  · rw [set_state, if_pos hA2]
    show some sm2.current = some B
    rw [h2c]

/-- Witness for `set_state_semantics` at a concrete input. -/
theorem set_state_semantics_witness :
    set_state (⟨AppState.DIALOGS, none, 0, fun _ => []⟩ : StateManager Nat)
      AppState.DIALOGS id = (⟨AppState.DIALOGS, none, 0, fun _ => []⟩, []) ∧
    ((return_to_previous_state
        ((set_state ((set_state (⟨AppState.DIALOGS, none, 0, fun _ => []⟩ : StateManager Nat)
          AppState.CHAT id).1) AppState.REPLY id).1)).1.current = AppState.CHAT ∧
     (return_to_previous_state
        ((set_state ((set_state (⟨AppState.DIALOGS, none, 0, fun _ => []⟩ : StateManager Nat)
          AppState.CHAT id).1) AppState.REPLY id).1)).1.prev = some AppState.REPLY) :=
  set_state_semantics ⟨AppState.DIALOGS, none, 0, fun _ => []⟩ id id id
    AppState.CHAT AppState.REPLY (by decide)

/-! ## Async loader (src/utils/async_loader.py, `AsyncLoader`)

A scheduled coroutine settles in one of three ways: it produces a result,
raises an exception, or is cancelled before settling (Python delivers
`asyncio.CancelledError` into the task).  `_task_wrapper` is modelled as a
function from the awaited outcome — together with the behaviour of the two
optional callbacks, which may themselves raise — to the fired settle
events, the exception information leaving the wrapper, and the updated
active-task table (task ids stand in for the uuid strings). -/

/-- Terminal outcome of the awaited coroutine inside `_task_wrapper`. -/
inductive Outcome (α ε : Type)
  | ok (r : α)
  | err (e : ε)
  | cancelled
deriving DecidableEq

/-- A settle event: which callback fired, with what argument. -/
inductive SettleEvent (α ε : Type)
  | completed (r : α)
  | errored (e : ε)
deriving DecidableEq

/-- Whether a user callback returns normally or raises. -/
inductive CbBehavior
  | returns
  | raises
deriving DecidableEq

/-- Invoking a callback: raising is an exceptional result. -/
def runCallback : CbBehavior → Except Unit Unit
  | .returns => .ok ()
  | .raises => .error ()

/-- Decidable test used for counting settled (non-cancelled) outcomes. -/
def isCancelled : Outcome α ε → Bool
  | .cancelled => true
  | _ => false

/-- Result of one `_task_wrapper` run. -/
structure WrapperRun (α ε : Type) where
  events : List (SettleEvent α ε)
  callbackErrorEscaped : Bool
  reraisedCancelled : Bool
  active : List Nat
deriving DecidableEq

/-- The `finally` block of `_task_wrapper` (src/utils/async_loader.py lines
98-101): `if task_id in self.active_tasks: del self.active_tasks[task_id]`. -/
def remove_active (tid : Nat) (active : List Nat) : List Nat :=
  if tid ∈ active then active.erase tid else active

/-- `AsyncLoader._task_wrapper` (src/utils/async_loader.py lines 53-101):
on success `on_complete` fires with the result inside an inner
`try/except` that swallows a callback exception; on failure `on_error`
fires likewise; on cancellation neither fires and `CancelledError` is
re-raised; the `finally` block removes the task id from the active table
in every case. -/
def task_wrapper (tid : Nat) (outcome : Outcome α ε)
    (cbComplete cbError : CbBehavior) (active : List Nat) : WrapperRun α ε :=
  match outcome with
  | .ok r =>
    { events := [.completed r]
      callbackErrorEscaped :=
        match runCallback cbComplete with
        | .ok _ => false
        | .error _ => false
      reraisedCancelled := false
      active := remove_active tid active }
  | .err e =>
    { events := [.errored e]
      callbackErrorEscaped :=
        match runCallback cbError with
        | .ok _ => false
        | .error _ => false
      reraisedCancelled := false
      active := remove_active tid active }
  | .cancelled =>
    { events := []
      callbackErrorEscaped := false
      reraisedCancelled := true
      active := remove_active tid active }

/-- `AsyncLoader.cancel_all_tasks` (src/utils/async_loader.py lines
122-129): every task is cancelled and the active table is cleared. -/
def cancel_all_tasks (_active : List Nat) : List Nat := []

/-- C6: each scheduled task fires exactly one settle event — `on_complete`
with the result on success, `on_error` with the exception on failure — and
none when cancelled before settling; hence over any list of scheduled
tasks the number of settle events is the number of non-cancelled outcomes,
which is at most the number of tasks and equals it when none is
cancelled. -/
theorem task_settle_events {α ε : Type} :
    (∀ (tid : Nat) (o : Outcome α ε) (cbC cbE : CbBehavior) (active : List Nat),
      (∀ r, o = .ok r →
        (task_wrapper tid o cbC cbE active).events = [.completed r]) ∧
      (∀ e, o = .err e →
        (task_wrapper tid o cbC cbE active).events = [.errored e]) ∧
      (o = .cancelled → (task_wrapper tid o cbC cbE active).events = []) ∧
      (o ≠ .cancelled → (task_wrapper tid o cbC cbE active).events.length = 1)) ∧
    (∀ outcomes : List (Outcome α ε),
      (outcomes.map
        (fun o => (task_wrapper 0 o .returns .returns []).events.length)).sum =
        (outcomes.filter (fun o => ! (isCancelled o))).length ∧
      (outcomes.map
        (fun o => (task_wrapper 0 o .returns .returns []).events.length)).sum ≤
        outcomes.length ∧
      ((∀ o ∈ outcomes, o ≠ Outcome.cancelled) →
        (outcomes.map
          (fun o => (task_wrapper 0 o .returns .returns []).events.length)).sum =
          outcomes.length)) := by
  have hlen : ∀ o : Outcome α ε,
      (task_wrapper 0 o .returns .returns []).events.length =
        (if isCancelled o then 0 else 1) := by
    intro o
    cases o <;> rfl
  constructor
  · intro tid o cbC cbE active
    refine ⟨?_, ?_, ?_, ?_⟩
    · intro r hr
      subst hr
      rfl
    · intro e he
      subst he
      rfl
    · intro hc
      subst hc
      rfl
    · intro hnc
      cases o with
      | ok r => rfl
      | err e => rfl
      | cancelled => exact absurd rfl hnc
  · intro outcomes
    induction outcomes with
    | nil => exact ⟨rfl, Nat.le_refl 0, fun _ => rfl⟩
    | cons o os ih =>
      refine ⟨?_, ?_, ?_⟩
      · rw [List.map_cons, List.sum_cons, ih.1, hlen o, List.filter_cons]
        cases o <;> simp [isCancelled, Nat.add_comm]
      · rw [List.map_cons, List.sum_cons, List.length_cons, hlen o]
        have h2 := ih.2.1
        cases o <;> simp [isCancelled] <;> omega
      · intro hall
        rw [List.map_cons, List.sum_cons, List.length_cons,
          ih.2.2 (fun x hx => hall x (List.mem_cons_of_mem o hx)), hlen o]
        have hnc : o ≠ Outcome.cancelled := hall o (List.mem_cons_self o os)
        cases o with
        | ok r => simp [isCancelled, Nat.add_comm]
        | err e => simp [isCancelled, Nat.add_comm]
        | cancelled => exact absurd rfl hnc

/-- Witness for `task_settle_events` at a concrete input. -/
theorem task_settle_events_witness :
    (task_wrapper 0 (Outcome.ok 42 : Outcome Nat Nat) CbBehavior.returns
      CbBehavior.returns []).events = [SettleEvent.completed 42] :=
  ((@task_settle_events Nat Nat).1 0 (Outcome.ok 42) CbBehavior.returns
    CbBehavior.returns []).1 42 rfl

/-- C7: every scheduled task is removed from the active table exactly once,
whichever way it settles: whenever its id is in the table, the wrapper run
leaves the table with that id erased (and, ids being unique, no longer
present), while a run whose id is already gone leaves the table unchanged;
a callback exception never escapes the wrapper; and `cancel_all_tasks`
leaves the active-task count at 0. -/
theorem task_cleanup {α ε : Type} :
    (∀ (tid : Nat) (o : Outcome α ε) (cbC cbE : CbBehavior) (active : List Nat),
      (task_wrapper tid o cbC cbE active).callbackErrorEscaped = false ∧
      (tid ∈ active →
        (task_wrapper tid o cbC cbE active).active = active.erase tid) ∧
      (tid ∈ active → active.Nodup →
        tid ∉ (task_wrapper tid o cbC cbE active).active) ∧
      (tid ∉ active → (task_wrapper tid o cbC cbE active).active = active)) ∧
    (∀ active : List Nat, (cancel_all_tasks active).length = 0) := by
  have hact : ∀ (tid : Nat) (o : Outcome α ε) (cbC cbE : CbBehavior)
      (active : List Nat),
      (task_wrapper tid o cbC cbE active).active = remove_active tid active := by
    intro tid o cbC cbE active
    cases o <;> rfl
  constructor
  · intro tid o cbC cbE active
    refine ⟨?_, ?_, ?_, ?_⟩
    · cases o with
      | ok r => cases cbC <;> rfl
      | err e => cases cbE <;> rfl
      | cancelled => rfl
    · intro hmem
      rw [hact, remove_active, if_pos hmem]
    · intro hmem hnd
      rw [hact, remove_active, if_pos hmem]
      intro hcontra
      rcases (List.Nodup.mem_erase_iff hnd).mp hcontra with ⟨hne, _⟩
      exact hne rfl
    · intro hmem
      rw [hact, remove_active, if_neg hmem]
  · intro active
    rfl

/-- Witness for `task_cleanup` at a concrete input. -/
theorem task_cleanup_witness :
    (task_wrapper 0 (Outcome.cancelled : Outcome Nat Nat) CbBehavior.returns
      CbBehavior.returns [0, 1]).active = [0, 1].erase 0 :=
  ((@task_cleanup Nat Nat).1 0 Outcome.cancelled CbBehavior.returns
    CbBehavior.returns [0, 1]).2.1 (by decide)

/-! ## Session glue (src/cli.py, `TelegramCLI`)

Only the cache-facing behaviour of the session is needed here: the state
carries the cache manager, the currently displayed message list, the
selected message index, the loading flag, and counters of the background
tasks created through `async_loader.create_task` (all of them, and the
remote message fetches among them).  `refresh_messages` is modelled for a
valid selected dialog, identified by its id. -/

/-- The session state slice relevant to message refreshing (src/cli.py
lines 30-60). -/
structure Session (μ : Type) where
  cache : CacheManager Unit (List μ)
  selected_messages : List μ
  selected_message_index : Nat
  is_loading : Bool
  fetches_scheduled : Nat
  tasks_scheduled : Nat
deriving DecidableEq

/-- `TelegramCLI.refresh_messages` (src/cli.py lines 205-243) for a valid
selected dialog: the loading flag is set, the cache is consulted, and the
Python truthiness test `if cached_messages:` serves the cached list only
when it is a non-`None`, non-empty list — a cached empty list falls
through to scheduling a remote fetch task, exactly like a miss. -/
def refresh_messages (s : Session μ) (dialog_id now : Int) : Session μ :=
  let s1 : Session μ := { s with is_loading := true }
  match get_messages s1.cache dialog_id now with
  | some (m :: ms) =>
    { s1 with
      selected_messages := m :: ms
      is_loading := false
      selected_message_index :=
        if (m :: ms).length ≤ s1.selected_message_index then 0
        else s1.selected_message_index }
  | _ =>
    { s1 with
      fetches_scheduled := s1.fetches_scheduled + 1
      tasks_scheduled := s1.tasks_scheduled + 1 }

/-- `TelegramCLI._on_reply_sent` (src/cli.py lines 454-461): schedules the
`mark_as_read` background task; it does not touch the cache. -/
def on_reply_sent (s : Session μ) : Session μ :=
  { s with tasks_scheduled := s.tasks_scheduled + 1 }

/-- `TelegramCLI._on_message_marked_read` (src/cli.py lines 463-472):
schedules the `refresh_messages` background task and clears the loading
flag; it does not touch the cache. -/
def on_message_marked_read (s : Session μ) : Session μ :=
  { s with tasks_scheduled := s.tasks_scheduled + 1, is_loading := false }

/-- The send-completion path: after a successful send, `_on_reply_sent`
runs, its mark-as-read task completes and `_on_message_marked_read` runs,
and the refresh task it scheduled then executes `refresh_messages`.  No
step in the chain calls `invalidate_messages_cache`. -/
def send_completion_chain (s : Session μ) (dialog_id now : Int) : Session μ :=
  refresh_messages (on_message_marked_read (on_reply_sent s)) dialog_id now

/-- C10: `refresh_messages` tests the cached value's truthiness, not its
presence: with a fresh cache entry holding the empty list it schedules a
remote fetch (and leaves the displayed list alone), while with a fresh
non-empty entry it serves the cached list without scheduling any fetch. -/
theorem refresh_messages_truthiness {μ : Type} (s : Session μ)
    (did now : Int) (e : MessagesCacheEntry (List μ))
    (hlook : s.cache.messages_cache.lookup did = some e)
    (hfresh : now - e.timestamp < s.cache.max_age_minutes * 60) :
    (e.data = some [] →
      (refresh_messages s did now).fetches_scheduled = s.fetches_scheduled + 1 ∧
      (refresh_messages s did now).selected_messages = s.selected_messages) ∧
    (∀ m ms, e.data = some (m :: ms) →
      (refresh_messages s did now).selected_messages = m :: ms ∧
      (refresh_messages s did now).fetches_scheduled = s.fetches_scheduled ∧
      (refresh_messages s did now).is_loading = false) := by
  have hget : get_messages s.cache did now = e.data := by
    unfold get_messages
    rw [hlook]
    dsimp only
    rw [if_pos hfresh]
  constructor
  · intro hdata
    unfold refresh_messages
    dsimp only
    rw [hget, hdata]
    exact ⟨rfl, rfl⟩
  · intro m ms hdata
    unfold refresh_messages
    dsimp only
    rw [hget, hdata]
    exact ⟨rfl, rfl, rfl⟩

/-- Witness for `refresh_messages_truthiness` at a concrete input: a fresh
cached empty list triggers a fetch. -/
theorem refresh_messages_truthiness_witness :
    (refresh_messages
      (⟨⟨5, ⟨none, 0, false⟩, [(1, ⟨some [], 100⟩)]⟩, [], 0, false, 0, 0⟩ :
        Session Nat) 1 100).fetches_scheduled = 0 + 1 ∧
    (refresh_messages
      (⟨⟨5, ⟨none, 0, false⟩, [(1, ⟨some [], 100⟩)]⟩, [], 0, false, 0, 0⟩ :
        Session Nat) 1 100).selected_messages = [] :=
  (refresh_messages_truthiness
    (⟨⟨5, ⟨none, 0, false⟩, [(1, ⟨some [], 100⟩)]⟩, [], 0, false, 0, 0⟩ :
      Session Nat) 1 100 ⟨some [], 100⟩ rfl (by decide)).1 rfl

/-- C3 (code-level behaviour at the failing input): with a fresh, non-empty
cached message list for the conversation, the whole send-completion chain
ends by serving the pre-send cached list: the cache entry is never
invalidated (the cache is unchanged), no remote fetch is scheduled, and
the displayed messages are exactly the stale cached ones.  The two
callback tasks of the chain do run (`tasks_scheduled` grows by 2). -/
theorem send_chain_serves_stale_cache :
    (send_completion_chain
      (⟨⟨5, ⟨none, 0, false⟩, [(1, ⟨some [7], 100⟩)]⟩, [7], 0, false, 0, 0⟩ :
        Session Nat) 1 100).selected_messages = [7] ∧
    (send_completion_chain
      (⟨⟨5, ⟨none, 0, false⟩, [(1, ⟨some [7], 100⟩)]⟩, [7], 0, false, 0, 0⟩ :
        Session Nat) 1 100).fetches_scheduled = 0 ∧
    (send_completion_chain
      (⟨⟨5, ⟨none, 0, false⟩, [(1, ⟨some [7], 100⟩)]⟩, [7], 0, false, 0, 0⟩ :
        Session Nat) 1 100).cache =
      ⟨5, ⟨none, 0, false⟩, [(1, ⟨some [7], 100⟩)]⟩ ∧
    (send_completion_chain
      (⟨⟨5, ⟨none, 0, false⟩, [(1, ⟨some [7], 100⟩)]⟩, [7], 0, false, 0, 0⟩ :
        Session Nat) 1 100).tasks_scheduled = 2 := by
  refine ⟨?_, ?_, ?_, ?_⟩ <;> rfl

end TgCl
